import Mathlib

/-!
# Verification of the note-taking application state logic (`src/App.tsx`)

Shallow embedding of the state container in `src/App.tsx`:

* `Note` / `Tag` mirror the record shapes from `types.ts` as used by the app.
  The `createdAt` / `updatedAt` fields hold the millisecond time value that the
  code obtains via `new Date(x).getTime()` from the stored ISO strings; the
  sort comparator only ever observes that value.  `title` / `content` are kept
  as character lists so that the case-insensitive substring search
  (`toLowerCase()` + `includes()`) has a direct structural model.
* `AppState` collects the `useState` cells of the `App` component.
* Each `handle...` callback becomes a pure state transformer.  The fresh
  identifier produced by `crypto.randomUUID()` and the current time
  `new Date()` are passed in as parameters.
* JavaScript truthiness on `activeTagId` (`null` and `""` are both falsy) and
  on `searchTerm` (`""` is falsy) is modelled explicitly.
* `Array.prototype.sort` is stable (ECMAScript 2019) and the comparator
  `(a, b) => bTime - aTime` is a total preorder on valid time values, so the
  result is the unique stable descending reordering; it is modelled by
  `List.insertionSort` with the non-strict relation `updGE`, whose stability
  is proved below (`filter_updEq_insertionSort`).
-/

namespace NotesApp

/-- A note record as handled by `App.tsx` (`types.ts` shape).  `title` and
`content` are character lists; `tags` is the list of referenced tag ids;
`createdAt`/`updatedAt` are the parsed time values of the ISO timestamps. -/
structure Note where
  id : String
  title : List Char
  content : List Char
  tags : List String
  createdAt : Nat
  updatedAt : Nat
deriving Repr, DecidableEq

/-- A tag record: identifier and display name. -/
structure Tag where
  id : String
  name : String
deriving Repr, DecidableEq

/-- The `useState` cells of the `App` component. -/
structure AppState where
  notes : List Note
  tags : List Tag
  activeNoteId : Option String
  activeTagId : Option String
  searchTerm : List Char
  isSidebarOpen : Bool
  isInitialized : Bool
  isAskGeminiModalOpen : Bool
deriving Repr, DecidableEq

/-- The initial state of the component: all `useState` defaults. -/
def initState : AppState :=
  { notes := [], tags := [], activeNoteId := none, activeTagId := none,
    searchTerm := [], isSidebarOpen := false, isInitialized := false,
    isAskGeminiModalOpen := false }

/-! ## String helpers: `toLowerCase()` and `includes()` -/

/-- `s.toLowerCase()`, character-wise. -/
def lowerL (cs : List Char) : List Char := cs.map Char.toLower

/-- `leadsWith hay pat`: `pat` occurs at the start of `hay`. -/
def leadsWith : List Char → List Char → Bool
  | _, [] => true
  | [], _ :: _ => false
  | a :: as, b :: bs => a == b && leadsWith as bs

/-- `hay.includes(pat)`: `pat` is a contiguous substring of `hay`. -/
def hasSub : List Char → List Char → Bool
  | [], pat => pat.isEmpty
  | c :: t, pat => leadsWith (c :: t) pat || hasSub t pat

/-! ## The filter predicate of `filteredNotes` (App.tsx lines 87-99) -/

/-- `if (activeTagId && !note.tags.includes(activeTagId)) return false`:
keep the note unless a truthy tag filter is set and the note's tag list
misses it.  JavaScript truthiness: `null` and `""` are both falsy. -/
def tagPass : Option String → List String → Bool
  | none, _ => true
  | some t, tgs => if t == "" then true else tgs.contains t

/-- `if (searchTerm && !title.toLowerCase().includes(lc) &&
!content.toLowerCase().includes(lc)) return false`:
keep the note unless a non-empty search term matches neither the lowered
title nor the lowered content. -/
def searchPass (term : List Char) (n : Note) : Bool :=
  if term.isEmpty then true
  else hasSub (lowerL n.title) (lowerL term) || hasSub (lowerL n.content) (lowerL term)

/-- The filter callback of `filteredNotes`: both guards pass. -/
def keepNote (activeTagId : Option String) (term : List Char) (n : Note) : Bool :=
  tagPass activeTagId n.tags && searchPass term n

/-! ## The sort of `filteredNotes` -/

/-- The order underlying `.sort((a, b) => new Date(b.updatedAt).getTime() -
new Date(a.updatedAt).getTime())`: `a` may come before `b` iff `a` is at
least as recent. -/
def updGE (a b : Note) : Prop := b.updatedAt ≤ a.updatedAt

instance : DecidableRel updGE := fun a b => Nat.decLe b.updatedAt a.updatedAt

instance : IsTotal Note updGE := ⟨fun a b => Nat.le_total b.updatedAt a.updatedAt⟩

instance : IsTrans Note updGE := ⟨fun _ _ _ h1 h2 => Nat.le_trans h2 h1⟩

/-- `filteredNotes` (App.tsx lines 87-99): filter by active tag and search
term, then stably sort by `updatedAt` descending. -/
def filteredNotes (notes : List Note) (activeTagId : Option String)
    (term : List Char) : List Note :=
  List.insertionSort updGE (notes.filter (keepNote activeTagId term))

/-! ## The handlers (App.tsx lines 57-85) -/

/-- `tags: activeTagId ? [activeTagId] : []` — seed the new note's tag list
with the truthy active tag filter, if any. -/
def seedTags : Option String → List String
  | none => []
  | some t => if t == "" then [] else [t]

/-- `handleAddNote` (lines 57-68): build a fresh note (id from
`crypto.randomUUID()`, both timestamps from `new Date()` during this handler
run), prepend it, and make it the active note. -/
def handleAddNote (now : Nat) (fresh : String) (s : AppState) : AppState :=
  let newNote : Note :=
    { id := fresh, title := [], content := [], tags := seedTags s.activeTagId,
      createdAt := now, updatedAt := now }
  { s with notes := newNote :: s.notes, activeNoteId := some fresh }

/-- `handleSaveNote` (lines 70-72): `prev.map(n => n.id === updatedNote.id ?
updatedNote : n)`. -/
def handleSaveNote (u : Note) (s : AppState) : AppState :=
  { s with notes := s.notes.map (fun n => if n.id == u.id then u else n) }

/-- `handleDeleteNote` (lines 74-79): drop notes with the given id; clear the
active selection iff it pointed at that id. -/
def handleDeleteNote (noteId : String) (s : AppState) : AppState :=
  let s1 := { s with notes := s.notes.filter (fun n => !(n.id == noteId)) }
  if s.activeNoteId == some noteId then { s1 with activeNoteId := none } else s1

/-- `handleAddTag` (lines 81-85): append a tag with a fresh id and the given
name, and return the new record. -/
def handleAddTag (fresh : String) (tagName : String) (s : AppState) :
    Tag × AppState :=
  let newTag : Tag := { id := fresh, name := tagName }
  (newTag, { s with tags := s.tags ++ [newTag] })

/-- `handleSelectTag` (lines 103-106): set the active tag filter and close
the mobile sidebar. -/
def handleSelectTag (tagId : Option String) (s : AppState) : AppState :=
  { s with activeTagId := tagId, isSidebarOpen := false }

/-! ## The load effect (App.tsx lines 20-35)

`localStorage.getItem` may throw (modelled as `Except.error`) or return
`null` (`Option.none`) or a string.  `JSON.parse` may throw; the parsed
value is stored unvalidated, which the TypeScript types assert to be a
`Note[]` / `Tag[]`, so a parse outcome is `Except Unit (List Note)` here.
The `try` block reads both keys, then parses and sets notes, then parses and
sets tags; the first throw jumps to `catch` (which only logs); `finally`
always sets `isInitialized`. -/

/-- The mount-time load effect. -/
def loadEffect (readNotes readTags : Except Unit (Option String))
    (parseNotes : String → Except Unit (List Note))
    (parseTags : String → Except Unit (List Tag)) (s : AppState) : AppState :=
  match readNotes with
  | .error _ => { s with isInitialized := true }
  | .ok sn =>
    match readTags with
    | .error _ => { s with isInitialized := true }
    | .ok st =>
      match sn with
      | none =>
        match st with
        | none => { s with isInitialized := true }
        | some strT =>
          match parseTags strT with
          | .error _ => { s with isInitialized := true }
          | .ok ts => { s with tags := ts, isInitialized := true }
      | some strN =>
        match parseNotes strN with
        | .error _ => { s with isInitialized := true }
        | .ok ns =>
          match st with
          | none => { s with notes := ns, isInitialized := true }
          | some strT =>
            match parseTags strT with
            | .error _ => { s with notes := ns, isInitialized := true }
            | .ok ts => { s with notes := ns, tags := ts, isInitialized := true }

/-! ## Serialization (`JSON.stringify` / `JSON.parse`)

Modelled at the JSON-document level: `Json` is the value a well-formed JSON
text denotes, `encode...` is `JSON.stringify` restricted to the record
shapes the app writes, `decode...` reads such a document back.  Printing a
document and re-parsing the text is the identity on `Json`, so the
stringify/parse round trip of the app reduces to `decode ∘ encode`. -/

/-- A JSON document. -/
inductive Json where
  | null : Json
  | str : String → Json
  | num : Nat → Json
  | arr : List Json → Json
  | obj : List (String × Json) → Json
deriving Repr

/-- Encode one note the way `JSON.stringify` lays out the record. -/
def encodeNote (n : Note) : Json :=
  .obj [("id", .str n.id), ("title", .str (String.mk n.title)),
        ("content", .str (String.mk n.content)),
        ("tags", .arr (n.tags.map Json.str)),
        ("createdAt", .num n.createdAt), ("updatedAt", .num n.updatedAt)]

/-- Decode a list of JSON strings back to the tag-id list. -/
def decodeStrs : List Json → Except Unit (List String)
  | [] => .ok []
  | .str s :: js =>
    match decodeStrs js with
    | .ok ss => .ok (s :: ss)
    | .error _ => .error ()
  | _ :: _ => .error ()

/-- Decode one note document. -/
def decodeNote : Json → Except Unit Note
  | .obj [("id", .str i), ("title", .str t), ("content", .str c),
          ("tags", .arr tj), ("createdAt", .num ca), ("updatedAt", .num ua)] =>
    match decodeStrs tj with
    | .ok tgs => .ok { id := i, title := t.data, content := c.data,
                       tags := tgs, createdAt := ca, updatedAt := ua }
    | .error _ => .error ()
  | _ => .error ()

/-- Decode a list of note documents. -/
def decodeNotes : List Json → Except Unit (List Note)
  | [] => .ok []
  | j :: js =>
    match decodeNote j, decodeNotes js with
    | .ok n, .ok ns => .ok (n :: ns)
    | _, _ => .error ()

/-- `JSON.stringify(notes)`: the whole collection as one array document. -/
def encodeNoteList (ns : List Note) : Json := .arr (ns.map encodeNote)

/-- Read a whole notes collection back from its array document. -/
def decodeNoteList : Json → Except Unit (List Note)
  | .arr js => decodeNotes js
  | _ => .error ()

/-- Encode one tag record. -/
def encodeTag (t : Tag) : Json := .obj [("id", .str t.id), ("name", .str t.name)]

/-- Decode one tag document. -/
def decodeTag : Json → Except Unit Tag
  | .obj [("id", .str i), ("name", .str nm)] => .ok { id := i, name := nm }
  | _ => .error ()

/-- Decode a list of tag documents. -/
def decodeTags : List Json → Except Unit (List Tag)
  | [] => .ok []
  | j :: js =>
    match decodeTag j, decodeTags js with
    | .ok t, .ok ts => .ok (t :: ts)
    | _, _ => .error ()

/-- `JSON.stringify(tags)`: the whole collection as one array document. -/
def encodeTagList (ts : List Tag) : Json := .arr (ts.map encodeTag)

/-- Read a whole tags collection back from its array document. -/
def decodeTagList : Json → Except Unit (List Tag)
  | .arr js => decodeTags js
  | _ => .error ()

/-! ## The event/effect trace model (App.tsx lines 37-55)

The two save effects have dependency arrays `[notes, isInitialized]` and
`[tags, isInitialized]`.  Every `setNotes` / `setTags` call allocates a new
array, so after each handler run the corresponding effect re-runs; it calls
`localStorage.setItem` with the full serialized collection iff
`isInitialized` is `true`, and a throwing `setItem` is caught and merely
logged.  An `AppOp` is one user-visible event (a handler invocation, or the
mount-time load); the `wok` flags record whether the `setItem` call(s) of
the ensuing effect run would succeed — the in-memory state must not depend
on them. -/

/-- One `localStorage.setItem(key, data)` call made by a save effect;
`ok = false` means the call threw (quota, etc.). -/
structure WriteAttempt where
  key : String
  data : Json
  ok : Bool

/-- One event applied to the component state. -/
inductive AppOp where
  | addNote (now : Nat) (fresh : String) (wok : Bool) : AppOp
  | saveNote (u : Note) (wok : Bool) : AppOp
  | deleteNote (id : String) (wok : Bool) : AppOp
  | addTag (fresh : String) (tagName : String) (wok : Bool) : AppOp
  | load (readNotes readTags : Except Unit (Option String))
      (parseNotes : String → Except Unit (List Note))
      (parseTags : String → Except Unit (List Tag))
      (wokNotes wokTags : Bool) : AppOp

/-- The pure state transition of one event (the `setItem` outcomes never
reach the state). -/
def applyOp (s : AppState) : AppOp → AppState
  | .addNote now fresh _ => handleAddNote now fresh s
  | .saveNote u _ => handleSaveNote u s
  | .deleteNote nid _ => handleDeleteNote nid s
  | .addTag fresh nm _ => (handleAddTag fresh nm s).2
  | .load rn rt pn pt _ _ => loadEffect rn rt pn pt s

/-- `ops.foldl applyOp s`: run a whole sequence of events. -/
def applyOps (s : AppState) (ops : List AppOp) : AppState :=
  ops.foldl applyOp s

/-- Does the event call `setNotes` (or flip `isInitialized`), making the
notes save effect re-run? -/
def touchesNotes : AppOp → Bool
  | .addNote .. | .saveNote .. | .deleteNote .. | .load .. => true
  | .addTag .. => false

/-- Does the event call `setTags` (or flip `isInitialized`), making the
tags save effect re-run? -/
def touchesTags : AppOp → Bool
  | .addTag .. | .load .. => true
  | _ => false

/-- Is the event the mount-time load effect? -/
def isLoad : AppOp → Bool
  | .load .. => true
  | _ => false

/-- The success flag the event assigns to a notes-collection write. -/
def wokNotesOf : AppOp → Bool
  | .addNote _ _ w | .saveNote _ w | .deleteNote _ w => w
  | .load _ _ _ _ w _ => w
  | .addTag .. => true

/-- The success flag the event assigns to a tags-collection write. -/
def wokTagsOf : AppOp → Bool
  | .addTag _ _ w => w
  | .load _ _ _ _ _ w => w
  | _ => true

/-- The `setItem` calls made by the effect runs that follow one event:
each re-run effect writes the full serialized collection iff the state is
initialized. -/
def opWrites (op : AppOp) (s' : AppState) : List WriteAttempt :=
  (if touchesNotes op && s'.isInitialized then
     [{ key := "notes_data", data := encodeNoteList s'.notes, ok := wokNotesOf op }]
   else []) ++
  (if touchesTags op && s'.isInitialized then
     [{ key := "tags_data", data := encodeTagList s'.tags, ok := wokTagsOf op }]
   else [])

/-- One event: new state plus the `setItem` calls it provokes. -/
def step (s : AppState) (op : AppOp) : AppState × List WriteAttempt :=
  (applyOp s op, opWrites op (applyOp s op))

/-- Run a sequence of events, accumulating every `setItem` call in order. -/
def runTrace (s : AppState) : List AppOp → AppState × List WriteAttempt
  | [] => (s, [])
  | op :: ops =>
    let r := runTrace (applyOp s op) ops
    (r.1, opWrites op (applyOp s op) ++ r.2)

/-- Replace the write-success flags of an event (leaving the event itself
alone): used to state that the in-memory state never depends on whether a
`setItem` call succeeded. -/
def setWok (b : Bool) : AppOp → AppOp
  | .addNote now fresh _ => .addNote now fresh b
  | .saveNote u _ => .saveNote u b
  | .deleteNote nid _ => .deleteNote nid b
  | .addTag fresh nm _ => .addTag fresh nm b
  | .load rn rt pn pt _ _ => .load rn rt pn pt b b

/-- Freshness of generated identifiers along a run: every `addNote` id is
new among the note ids at the moment it runs, and every `addTag` id is new
among the tag ids at the moment it runs (`crypto.randomUUID()`). -/
def FreshOps : AppState → List AppOp → Prop
  | _, [] => True
  | s, op :: ops =>
    (match op with
     | .addNote _ fresh _ => fresh ∉ s.notes.map Note.id
     | .addTag fresh _ _ => fresh ∉ s.tags.map Tag.id
     | _ => True) ∧ FreshOps (applyOp s op) ops

/-- The event is one of the three note-collection operations. -/
def isNoteOp : AppOp → Bool
  | .addNote .. | .saveNote .. | .deleteNote .. => true
  | _ => false

/-! ## Sample data for witnesses -/

/-- A concrete note used to instantiate hypotheses of proved theorems. -/
def sampleNote : Note :=
  { id := "a", title := [], content := [], tags := [], createdAt := 1, updatedAt := 1 }

/-- A second concrete note with a different id. -/
def sampleNote2 : Note :=
  { id := "z", title := "Meeting notes".data, content := "agenda".data,
    tags := ["t1"], createdAt := 2, updatedAt := 5 }

/-- A concrete initialized state holding one note. -/
def sampleState : AppState :=
  { initState with notes := [sampleNote], isInitialized := true }

/-! ## Theorems -/

/-- **C3**: the create operation produces a note with the supplied fresh
identifier, empty title and content, tag list `[activeTagId]` when a truthy
active tag filter is set and `[]` otherwise, and `createdAt = updatedAt =
now`; the note is prepended (all prior notes follow in order) and becomes
the active note; a fresh identifier keeps the id list duplicate-free. -/
theorem addNote_spec (s : AppState) (now : Nat) (fresh : String)
    (hf : fresh ∉ s.notes.map Note.id) :
    ∃ nn : Note,
      (handleAddNote now fresh s).notes = nn :: s.notes ∧
      nn.id = fresh ∧ nn.title = [] ∧ nn.content = [] ∧
      nn.createdAt = now ∧ nn.updatedAt = now ∧
      (∀ t, s.activeTagId = some t → t ≠ "" → nn.tags = [t]) ∧
      ((s.activeTagId = none ∨ s.activeTagId = some "") → nn.tags = []) ∧
      (handleAddNote now fresh s).activeNoteId = some fresh ∧
      ((s.notes.map Note.id).Nodup →
        ((handleAddNote now fresh s).notes.map Note.id).Nodup) := by
  refine ⟨_, rfl, rfl, rfl, rfl, rfl, rfl, ?_, ?_, rfl, ?_⟩
  · intro t ht hne
    simp [seedTags, ht, hne]
  · rintro (h | h) <;> simp [seedTags, h]
  · intro hnd
    simpa [handleAddNote, List.nodup_cons] using And.intro hf hnd

/-- Witness for `addNote_spec` at a concrete state. -/
theorem addNote_spec_witness :
    (handleAddNote 5 "b" sampleState).activeNoteId = some "b" ∧
    ((handleAddNote 5 "b" sampleState).notes.map Note.id).Nodup := by
  obtain ⟨nn, -, -, -, -, -, -, -, -, h9, h10⟩ :=
    addNote_spec sampleState 5 "b" (by decide)
  exact ⟨h9, h10 (by decide)⟩

/-- **C4**: save maps the collection position-wise — the entry at each index
is replaced by the record exactly when its identifier matches, otherwise
kept — so length and order are preserved; with no matching identifier the
collection is unchanged. -/
theorem saveNote_spec (s : AppState) (u : Note) :
    (handleSaveNote u s).notes.length = s.notes.length ∧
    (∀ i : Nat, (handleSaveNote u s).notes[i]? =
      (s.notes[i]?).map (fun n => if n.id = u.id then u else n)) ∧
    ((∀ n ∈ s.notes, n.id ≠ u.id) → (handleSaveNote u s).notes = s.notes) := by
  refine ⟨by simp [handleSaveNote], ?_, ?_⟩
  · intro i
    show (s.notes.map _)[i]? = _
    rw [List.getElem?_map]
    cases s.notes[i]? with
    | none => rfl
    | some n => simp [beq_iff_eq]
  · intro h
    have hcong : ∀ n ∈ s.notes, (if n.id == u.id then u else n) = n := by
      intro n hn
      simp [beq_iff_eq, h n hn]
    show s.notes.map _ = s.notes
    rw [List.map_congr_left hcong]
    exact List.map_id' _

/-- Witness for `saveNote_spec`: saving a record whose id is absent leaves
the concrete collection unchanged. -/
theorem saveNote_spec_witness :
    (handleSaveNote sampleNote2 sampleState).notes = sampleState.notes :=
  (saveNote_spec sampleState sampleNote2).2.2 (by decide)

/-- **C5**: delete removes exactly the notes carrying the given identifier
(membership, order and multiplicities of the rest preserved); the active
selection is cleared iff it pointed at the deleted identifier. -/
theorem deleteNote_spec (s : AppState) (nid : String) :
    (∀ n : Note, n ∈ (handleDeleteNote nid s).notes ↔ (n ∈ s.notes ∧ n.id ≠ nid)) ∧
    (handleDeleteNote nid s).notes.Sublist s.notes ∧
    (∀ n : Note, n.id ≠ nid →
      (handleDeleteNote nid s).notes.count n = s.notes.count n) ∧
    (s.activeNoteId = some nid → (handleDeleteNote nid s).activeNoteId = none) ∧
    (s.activeNoteId ≠ some nid →
      (handleDeleteNote nid s).activeNoteId = s.activeNoteId) := by
  have hnotes : (handleDeleteNote nid s).notes =
      s.notes.filter (fun n => !(n.id == nid)) := by
    unfold handleDeleteNote
    split <;> rfl
  have hact : (handleDeleteNote nid s).activeNoteId =
      if s.activeNoteId == some nid then none else s.activeNoteId := by
    unfold handleDeleteNote
    split <;> simp_all
  refine ⟨?_, ?_, ?_, ?_, ?_⟩
  · intro n
    rw [hnotes]
    simp [List.mem_filter]
  · rw [hnotes]
    exact List.filter_sublist _
  · intro n h
    rw [hnotes, List.count_filter]
    simp [h]
  · intro h
    rw [hact]
    simp [h]
  · intro h
    rw [hact]
    simp [beq_iff_eq, h]

/-- Witness for `deleteNote_spec`: deleting an absent id at a concrete state
keeps counts and (non-matching) selection. -/
theorem deleteNote_spec_witness :
    (handleDeleteNote "z" sampleState).notes.count sampleNote =
      sampleState.notes.count sampleNote ∧
    (handleDeleteNote "z" sampleState).activeNoteId = sampleState.activeNoteId := by
  obtain ⟨-, -, h3, -, h5⟩ := deleteNote_spec sampleState "z"
  exact ⟨h3 sampleNote (by decide), h5 (by decide)⟩

/-- **C9**: tag creation returns a record with the supplied fresh identifier
and the given name, appends it at the end of the tags collection (existing
tags kept in place and order), keeps the tag-id list duplicate-free when the
id is fresh; and no handler of this surface updates or deletes a tag. -/
theorem addTag_spec (s : AppState) (fresh nm : String)
    (hf : fresh ∉ s.tags.map Tag.id) :
    (handleAddTag fresh nm s).1.id = fresh ∧
    (handleAddTag fresh nm s).1.name = nm ∧
    (handleAddTag fresh nm s).2.tags = s.tags ++ [(handleAddTag fresh nm s).1] ∧
    ((s.tags.map Tag.id).Nodup →
      ((handleAddTag fresh nm s).2.tags.map Tag.id).Nodup) ∧
    (∀ now f, (handleAddNote now f s).tags = s.tags) ∧
    (∀ u, (handleSaveNote u s).tags = s.tags) ∧
    (∀ nid, (handleDeleteNote nid s).tags = s.tags) ∧
    (∀ tid, (handleSelectTag tid s).tags = s.tags) := by
  refine ⟨rfl, rfl, rfl, ?_, fun _ _ => rfl, fun _ => rfl, ?_, fun _ => rfl⟩
  · intro hnd
    simpa [handleAddTag, List.nodup_append, hf] using hnd
  · intro nid
    unfold handleDeleteNote
    split <;> rfl

/-- Witness for `addTag_spec` at a concrete state. -/
theorem addTag_spec_witness :
    (handleAddTag "t9" "work" sampleState).2.tags =
      sampleState.tags ++ [(handleAddTag "t9" "work" sampleState).1] ∧
    (((handleAddTag "t9" "work" sampleState).2.tags.map Tag.id).Nodup) := by
  obtain ⟨-, -, h3, h4, -⟩ := addTag_spec sampleState "t9" "work" (by decide)
  exact ⟨h3, h4 (by decide)⟩

/-- **C10**: the two collections are mutated independently — the note
handlers leave the tags collection, the active tag filter and the search
term unchanged, and tag creation leaves the notes collection, the active
note selection, the active tag filter and the search term unchanged. -/
theorem handlers_frame (s : AppState) (now : Nat) (fresh : String) (u : Note)
    (nid : String) (tfresh tnm : String) :
    ((handleAddNote now fresh s).tags = s.tags ∧
     (handleAddNote now fresh s).activeTagId = s.activeTagId ∧
     (handleAddNote now fresh s).searchTerm = s.searchTerm) ∧
    ((handleSaveNote u s).tags = s.tags ∧
     (handleSaveNote u s).activeTagId = s.activeTagId ∧
     (handleSaveNote u s).searchTerm = s.searchTerm) ∧
    ((handleDeleteNote nid s).tags = s.tags ∧
     (handleDeleteNote nid s).activeTagId = s.activeTagId ∧
     (handleDeleteNote nid s).searchTerm = s.searchTerm) ∧
    ((handleAddTag tfresh tnm s).2.notes = s.notes ∧
     (handleAddTag tfresh tnm s).2.activeNoteId = s.activeNoteId ∧
     (handleAddTag tfresh tnm s).2.activeTagId = s.activeTagId ∧
     (handleAddTag tfresh tnm s).2.searchTerm = s.searchTerm) := by
  refine ⟨⟨rfl, rfl, rfl⟩, ⟨rfl, rfl, rfl⟩, ?_, ⟨rfl, rfl, rfl, rfl⟩⟩
  unfold handleDeleteNote
  split <;> exact ⟨rfl, rfl, rfl⟩

/-! ### Stability of the descending sort -/

/-- Inserting a note into a list leaves the sub-list of any fixed
`updatedAt` value unchanged except for the note itself, which lands in
front of its ties: every element skipped by `orderedInsert` is strictly
more recent. -/
theorem filter_updEq_orderedInsert (t : Nat) (x : Note) (m : List Note) :
    (List.orderedInsert updGE x m).filter (fun n => n.updatedAt == t) =
      if x.updatedAt == t then x :: m.filter (fun n => n.updatedAt == t)
      else m.filter (fun n => n.updatedAt == t) := by
  induction m with
  | nil =>
    rw [List.orderedInsert, List.filter_cons]
  | cons y ys ih =>
    by_cases h : updGE x y
    · rw [List.orderedInsert, if_pos h, List.filter_cons]
    · have hlt : x.updatedAt < y.updatedAt := Nat.lt_of_not_le h
      rw [List.orderedInsert, if_neg h, List.filter_cons, List.filter_cons, ih]
      by_cases hx : x.updatedAt = t
      · have hy : ¬(y.updatedAt = t) := by omega
        simp [hx, hy]
      · simp [hx]

/-- Stability: sorting by descending `updatedAt` preserves, for every fixed
`updatedAt` value, the relative order of the notes carrying it. -/
theorem filter_updEq_insertionSort (t : Nat) (l : List Note) :
    (List.insertionSort updGE l).filter (fun n => n.updatedAt == t) =
      l.filter (fun n => n.updatedAt == t) := by
  induction l with
  | nil => rfl
  | cons x xs ih =>
    rw [List.insertionSort, filter_updEq_orderedInsert, ih, List.filter_cons]

/-- **C1**: the derived view keeps a note iff (the active tag filter is
falsy OR the note's tag list contains it) AND (the search term is empty OR
it is a case-insensitive substring of title or content); the view is a
permutation of the kept notes, sorted by `updatedAt` descending, and notes
of equal `updatedAt` appear in their relative order from the underlying
collection. -/
theorem filteredNotes_spec (notes : List Note) (atid : Option String)
    (term : List Char) :
    (∀ n : Note, keepNote atid term n = true ↔
      (((atid = none ∨ atid = some "") ∨
        (∃ tg, atid = some tg ∧ n.tags.contains tg = true)) ∧
       (term = [] ∨ hasSub (lowerL n.title) (lowerL term) = true ∨
        hasSub (lowerL n.content) (lowerL term) = true))) ∧
    List.Perm (filteredNotes notes atid term)
      (notes.filter (keepNote atid term)) ∧
    List.Pairwise (fun a b : Note => b.updatedAt ≤ a.updatedAt)
      (filteredNotes notes atid term) ∧
    (∀ t : Nat,
      (filteredNotes notes atid term).filter (fun n => n.updatedAt == t) =
        notes.filter (fun n => keepNote atid term n && n.updatedAt == t)) := by
  refine ⟨?_, List.perm_insertionSort updGE _, ?_, ?_⟩
  · intro n
    cases atid with
    | none => simp [keepNote, tagPass, searchPass, List.isEmpty_iff]
    | some tg =>
      by_cases htg : tg = "" <;>
        simp [keepNote, tagPass, searchPass, List.isEmpty_iff, htg]
  · exact List.sorted_insertionSort updGE _
  · intro t
    show (List.insertionSort updGE _).filter _ = _
    rw [filter_updEq_insertionSort, List.filter_filter]
    exact List.filter_congr fun n _ => Bool.and_comm _ _

/-! ### The identifier-uniqueness invariant -/

/-- The ids of the notes are untouched by a save: the replacement record
carries the very id it replaces. -/
theorem saveNote_ids (u : Note) (s : AppState) :
    (handleSaveNote u s).notes.map Note.id = s.notes.map Note.id := by
  show (s.notes.map _).map Note.id = _
  rw [List.map_map]
  apply List.map_congr_left
  intro n _
  show Note.id (if n.id == u.id then u else n) = n.id
  by_cases h : n.id = u.id
  · simp [h]
  · simp [h]

/-- **C2**: along every sequence of create, save and delete events whose
generated identifiers are fresh, a notes collection with pairwise-distinct
identifiers keeps pairwise-distinct identifiers. -/
theorem noteIds_nodup_invariant (s : AppState) (ops : List AppOp)
    (hops : ∀ op ∈ ops, isNoteOp op = true)
    (hfresh : FreshOps s ops)
    (hnd : (s.notes.map Note.id).Nodup) :
    ((applyOps s ops).notes.map Note.id).Nodup := by
  induction ops generalizing s with
  | nil => exact hnd
  | cons op ops ih =>
    have hop : isNoteOp op = true := hops op (List.mem_cons_self ..)
    have hrest : ∀ o ∈ ops, isNoteOp o = true :=
      fun o ho => hops o (List.mem_cons_of_mem _ ho)
    obtain ⟨hfr, hfs⟩ := hfresh
    refine ih (applyOp s op) hrest hfs ?_
    cases op with
    | addNote now fresh w =>
      simpa [applyOp, handleAddNote, List.nodup_cons] using And.intro hfr hnd
    | saveNote u w =>
      show ((handleSaveNote u s).notes.map Note.id).Nodup
      rw [saveNote_ids]
      exact hnd
    | deleteNote nid w =>
      show ((handleDeleteNote nid s).notes.map Note.id).Nodup
      have hsub : (handleDeleteNote nid s).notes.Sublist s.notes := by
        unfold handleDeleteNote
        split <;> exact List.filter_sublist _
      exact hnd.sublist (hsub.map Note.id)
    | addTag a b w => simp [isNoteOp] at hop
    | load a b c d e f => simp [isNoteOp] at hop

/-- A concrete sequence of note events used as witness input. -/
def sampleOps : List AppOp :=
  [.addNote 1 "a" true, .saveNote sampleNote2 true,
   .deleteNote "q" true, .addNote 2 "b" false]

/-- Witness for `noteIds_nodup_invariant` on a concrete run. -/
theorem noteIds_nodup_invariant_witness :
    ((applyOps initState sampleOps).notes.map Note.id).Nodup := by
  apply noteIds_nodup_invariant initState sampleOps (by decide) ?_ (by decide)
  exact ⟨by decide, by decide, trivial, by decide, trivial⟩

/-! ### Serialization round trip -/

/-- Decoding inverts encoding on tag-id lists. -/
theorem decodeStrs_encode (ss : List String) :
    decodeStrs (ss.map Json.str) = .ok ss := by
  induction ss with
  | nil => rfl
  | cons s ss ih => simp [decodeStrs, ih]

/-- Decoding inverts encoding on a single note. -/
theorem decodeNote_encode (n : Note) : decodeNote (encodeNote n) = .ok n := by
  show (match decodeStrs (n.tags.map Json.str) with
        | .ok tgs => Except.ok (⟨n.id, n.title, n.content, tgs,
            n.createdAt, n.updatedAt⟩ : Note)
        | .error _ => Except.error ()) = Except.ok n
  rw [decodeStrs_encode]

/-- Decoding inverts encoding on a single tag. -/
theorem decodeTag_encode (t : Tag) : decodeTag (encodeTag t) = .ok t := rfl

/-- **C8**: serializing the notes (or tags) collection and deserializing
the result yields an equal collection. -/
theorem serialize_roundtrip (ns : List Note) (ts : List Tag) :
    decodeNoteList (encodeNoteList ns) = .ok ns ∧
    decodeTagList (encodeTagList ts) = .ok ts := by
  constructor
  · show decodeNotes (ns.map encodeNote) = .ok ns
    induction ns with
    | nil => rfl
    | cons n ns ih => simp [decodeNotes, decodeNote_encode, ih]
  · show decodeTags (ts.map encodeTag) = .ok ts
    induction ts with
    | nil => rfl
    | cons t ts ih => simp [decodeTags, decodeTag_encode, ih]

/-! ### Startup load and its failure modes -/

/-- The `finally` block always fires: after the load effect the state is
initialized, whatever the reads and parses did. -/
theorem loadEffect_isInitialized (rn rt : Except Unit (Option String))
    (pn : String → Except Unit (List Note))
    (pt : String → Except Unit (List Tag)) (s : AppState) :
    (loadEffect rn rt pn pt s).isInitialized = true := by
  cases rn with
  | error e => rfl
  | ok sn =>
    cases rt with
    | error e => rfl
    | ok st =>
      cases sn with
      | none =>
        cases st with
        | none => rfl
        | some strT => cases hpt : pt strT <;> simp [loadEffect, hpt]
      | some strN =>
        cases hpn : pn strN with
        | error e => simp [loadEffect, hpn]
        | ok ns =>
          cases st with
          | none => simp [loadEffect, hpn]
          | some strT => cases hpt : pt strT <;> simp [loadEffect, hpn, hpt]

/-- **C6 counterexample**: stored notes deserialize fine while the stored
tags are malformed — a deserialization failure after which the notes
collection does *not* fall back to empty, contradicting the claim as
stated. -/
theorem load_fallback_counterexample :
    ((fun _ => Except.error () : String → Except Unit (List Tag)) "t" =
      Except.error ()) ∧
    (loadEffect (.ok (some "n")) (.ok (some "t"))
      (fun _ => .ok [sampleNote]) (fun _ => .error ()) initState).notes =
      [sampleNote] ∧
    [sampleNote] ≠ ([] : List Note) :=
  ⟨rfl, rfl, by decide⟩

/-- **C6 amended**: on any read or deserialization failure during startup
the failure path still marks initialization complete; a read failure or a
notes-deserialization failure leaves both collections empty, while a
tags-deserialization failure keeps the already-loaded notes (the parsed
collection, or empty if no notes were stored) and only the tags collection
falls back to empty. -/
theorem load_fallback_amended (rn rt : Except Unit (Option String))
    (pn : String → Except Unit (List Note))
    (pt : String → Except Unit (List Tag)) :
    (loadEffect rn rt pn pt initState).isInitialized = true ∧
    (∀ e, rn = .error e →
      (loadEffect rn rt pn pt initState).notes = [] ∧
      (loadEffect rn rt pn pt initState).tags = []) ∧
    (∀ e, rt = .error e →
      (loadEffect rn rt pn pt initState).notes = [] ∧
      (loadEffect rn rt pn pt initState).tags = []) ∧
    (∀ strN e, rn = .ok (some strN) → pn strN = .error e →
      (loadEffect rn rt pn pt initState).notes = [] ∧
      (loadEffect rn rt pn pt initState).tags = []) ∧
    (∀ sn strT e, rn = .ok sn → rt = .ok (some strT) → pt strT = .error e →
      (loadEffect rn rt pn pt initState).tags = [] ∧
      (sn = none → (loadEffect rn rt pn pt initState).notes = []) ∧
      (∀ strN ns, sn = some strN → pn strN = .ok ns →
        (loadEffect rn rt pn pt initState).notes = ns)) := by
  refine ⟨loadEffect_isInitialized .., ?_, ?_, ?_, ?_⟩
  · rintro e rfl
    exact ⟨rfl, rfl⟩
  · rintro e rfl
    cases rn with
    | error e2 => exact ⟨rfl, rfl⟩
    | ok sn => exact ⟨rfl, rfl⟩
  · rintro strN e rfl hpn
    cases rt with
    | error e2 => exact ⟨rfl, rfl⟩
    | ok st => simp [loadEffect, hpn, initState]
  · rintro sn strT e rfl rfl hpt
    refine ⟨?_, ?_, ?_⟩
    · cases sn with
      | none => simp [loadEffect, hpt, initState]
      | some strN =>
        cases hns : pn strN with
        | error e2 => simp [loadEffect, hpt, hns, initState]
        | ok ns => simp [loadEffect, hpt, hns, initState]
    · rintro rfl
      simp [loadEffect, hpt, initState]
    · rintro strN ns rfl hns
      simp [loadEffect, hpt, hns, initState]

/-- Witness for `load_fallback_amended`: a concrete run where the tags
parse fails and the loaded notes are kept. -/
theorem load_fallback_amended_witness :
    (loadEffect (.ok (some "n")) (.ok (some "t"))
      (fun _ => .ok [sampleNote]) (fun _ => .error ()) initState).isInitialized
        = true ∧
    (loadEffect (.ok (some "n")) (.ok (some "t"))
      (fun _ => .ok [sampleNote]) (fun _ => .error ()) initState).tags = [] ∧
    (loadEffect (.ok (some "n")) (.ok (some "t"))
      (fun _ => .ok [sampleNote]) (fun _ => .error ()) initState).notes =
      [sampleNote] := by
  obtain ⟨h1, -, -, -, h5⟩ := load_fallback_amended (.ok (some "n"))
    (.ok (some "t")) (fun _ => .ok [sampleNote]) (fun _ => .error ())
  obtain ⟨ht, -, hn⟩ := h5 (some "n") "t" () rfl rfl rfl
  exact ⟨h1, ht, hn "n" [sampleNote] rfl rfl⟩


/-! ### The initialization gate for persistence -/

/-- Non-load events never touch the initialization flag. -/
theorem applyOp_isInitialized_of_not_load (s : AppState) (op : AppOp)
    (h : isLoad op = false) :
    (applyOp s op).isInitialized = s.isInitialized := by
  cases op with
  | addNote now fresh w => rfl
  | saveNote u w => rfl
  | deleteNote nid w =>
    show (handleDeleteNote nid s).isInitialized = s.isInitialized
    unfold handleDeleteNote
    split <;> rfl
  | addTag f nm w => rfl
  | load a b c d e f => simp [isLoad] at h

/-- Once initialized, every event leaves the state initialized. -/
theorem applyOp_isInitialized_mono (s : AppState) (op : AppOp)
    (h : s.isInitialized = true) :
    (applyOp s op).isInitialized = true := by
  cases op with
  | addNote now fresh w => exact h
  | saveNote u w => exact h
  | deleteNote nid w =>
    show (handleDeleteNote nid s).isInitialized = true
    unfold handleDeleteNote
    split <;> exact h
  | addTag f nm w => exact h
  | load a b c d e f => exact loadEffect_isInitialized ..

/-- An event landing in an uninitialized state provokes no `setItem` call. -/
theorem step_silent (s : AppState) (op : AppOp)
    (h : (applyOp s op).isInitialized = false) : (step s op).2 = [] := by
  simp [step, opWrites, h]

/-- A run that never loads, started uninitialized, makes no `setItem` call. -/
theorem runTrace_silent (ops : List AppOp) : ∀ s : AppState,
    s.isInitialized = false → (∀ op ∈ ops, isLoad op = false) →
    (runTrace s ops).2 = [] := by
  induction ops with
  | nil => intro s _ _; rfl
  | cons op ops ih =>
    intro s h hops
    have hl : isLoad op = false := hops op (List.mem_cons_self ..)
    have h1 : (applyOp s op).isInitialized = false := by
      rw [applyOp_isInitialized_of_not_load s op hl, h]
    show opWrites op (applyOp s op) ++ (runTrace (applyOp s op) ops).2 = []
    rw [ih (applyOp s op) h1 (fun o ho => hops o (List.mem_cons_of_mem _ ho))]
    simp [opWrites, h1]

/-- **C7**: no `setItem` call is made before initialization is marked
complete (events before the load produce none, and non-load events keep the
gate shut); after initialization, every event that touches the notes (resp.
tags) collection provokes a store-write of that collection's full
serialization; and the in-memory state never depends on whether the
`setItem` calls succeed. -/
theorem persistence_gate_spec :
    (∀ s op, s.isInitialized = false → isLoad op = false →
      (step s op).2 = [] ∧ (applyOp s op).isInitialized = false) ∧
    (∀ s (ops : List AppOp), s.isInitialized = false →
      (∀ op ∈ ops, isLoad op = false) → (runTrace s ops).2 = []) ∧
    (∀ s op, s.isInitialized = true → touchesNotes op = true →
      ({ key := "notes_data", data := encodeNoteList (applyOp s op).notes,
         ok := wokNotesOf op } : WriteAttempt) ∈ (step s op).2) ∧
    (∀ s op, s.isInitialized = true → touchesTags op = true →
      ({ key := "tags_data", data := encodeTagList (applyOp s op).tags,
         ok := wokTagsOf op } : WriteAttempt) ∈ (step s op).2) ∧
    (∀ s op b, applyOp s (setWok b op) = applyOp s op) := by
  refine ⟨?_, ?_, ?_, ?_, ?_⟩
  · intro s op h hl
    have h1 : (applyOp s op).isInitialized = false := by
      rw [applyOp_isInitialized_of_not_load s op hl, h]
    exact ⟨step_silent s op h1, h1⟩
  · exact fun s ops h hops => runTrace_silent ops s h hops
  · intro s op h ht
    have h1 := applyOp_isInitialized_mono s op h
    simp [step, opWrites, ht, h1]
  · intro s op h ht
    have h1 := applyOp_isInitialized_mono s op h
    simp [step, opWrites, ht, h1]
  · intro s op b
    cases op <;> rfl

/-- Witness for `persistence_gate_spec`: a concrete load-free run makes no
`setItem` call, and a concrete save in an initialized state writes the full
serialized notes collection. -/
theorem persistence_gate_spec_witness :
    (runTrace initState sampleOps).2 = [] ∧
    ({ key := "notes_data",
       data := encodeNoteList (applyOp sampleState (.saveNote sampleNote true)).notes,
       ok := true } : WriteAttempt) ∈
      (step sampleState (.saveNote sampleNote true)).2 := by
  obtain ⟨-, h2, h3, -, -⟩ := persistence_gate_spec
  exact ⟨h2 initState sampleOps rfl (by decide),
    h3 sampleState (.saveNote sampleNote true) rfl rfl⟩
